/-
Verification development for the mongodb-elasticsearch-sync tool
(src/index.ts).  The TypeScript source is shallowly embedded below:

  * `findBestProbabilityType`  — the probabilistic type resolver
  * `resolveField` / `getCollectionSchema` — the schema compiler
  * `assignProp` / `buildProps` / `getMapping` — the mapping compiler
  * `serialize` — the document normalizer
  * `stripIdAndVersion` / `buildBulk` / `runSync` — the per-collection
    sync loop of the `run` command (the external MongoDB and
    Elasticsearch collaborators are abstracted as function parameters)

JavaScript numbers carrying probabilities are modelled as rationals,
JavaScript objects holding documents are modelled as ordered key/value
association lists, and the JavaScript object used as the Elasticsearch
property table (built by keyed assignment) is modelled as a finite map
`String → Option EsProp` so that repeated assignment has the exact
overwrite semantics of the source.
-/
import Mathlib

set_option autoImplicit false

/-- A named field of a nested (`Document`) mongodb-schema type node.
The source only ever reads the `name` of such a field. -/
structure DocField where
  name : String
deriving DecidableEq, Repr

/-- A mongodb-schema type observation node: `{ name, probability, types,
fields }`.  `types` is populated for `Array` nodes, `fields` for
`Document` nodes; probabilities are JS numbers, modelled as rationals. -/
inductive TypeNode where
  | mk (name : String) (probability : Rat) (types : List TypeNode)
      (fields : List DocField)

/-- The `name` property of a type node. -/
def TypeNode.name : TypeNode → String
  | .mk n _ _ _ => n

/-- The `probability` property of a type node. -/
def TypeNode.probability : TypeNode → Rat
  | .mk _ p _ _ => p

/-- The `types` property of a type node (element types of an `Array`). -/
def TypeNode.types : TypeNode → List TypeNode
  | .mk _ _ ts _ => ts

/-- The `fields` property of a type node (fields of a `Document`). -/
def TypeNode.fields : TypeNode → List DocField
  | .mk _ _ _ fs => fs

/-- One entry of `schema.fields` as produced by mongodb-schema:
a field name together with its list of type observations. -/
structure SchemaField where
  name : String
  types : List TypeNode

/-- The per-field output of `getCollectionSchema`.  In the source the
plain branch returns `{name, type}` with no `isArray` key, the array
branch sets `isArray: true` and the geo-point branch `isArray: false`;
the missing key is modelled as `none`. -/
structure ResolvedField where
  name : String
  type : String
  isArray : Option Bool
deriving DecidableEq, Repr

/-- The output of `getCollectionSchema`: the collection name and one
entry per probed field, `null` (here `none`) for dropped fields. -/
structure CollectionSchema where
  name : String
  fields : List (Option ResolvedField)

/-- `findBestProbabilityType(types)`, lines 202–213 of src/index.ts:
drop `Undefined` observations; if nothing remains return `{name:
"String"}`, otherwise `reduce` keeps the observation with the strictly
greater probability, so the first-encountered maximum wins.  `bestOf`
is the initial-value-free `Array.prototype.reduce`. -/
def bestOf (a : TypeNode) (l : List TypeNode) : TypeNode :=
  l.foldl (fun max t => if max.probability < t.probability then t else max) a

/-- See `bestOf`; the `[]` branch is the `{name: "String"}` fallback for
fields that only ever carry `Undefined`. -/
def findBestProbabilityType (types : List TypeNode) : TypeNode :=
  match types.filter (fun t => t.name ≠ "Undefined") with
  | [] => TypeNode.mk "String" 0 [] []
  | t :: ts => bestOf t ts

/-- One mapped-field case of `getCollectionSchema` (lines 169–198):
resolve the winning type; an `Array` winner recurses once into its
element types; a `Document` winner is kept only in the exact
`{lat, lon}` two-field shape (as `GeoPoint`), any other nested document
yields `null`; every other winner is kept with its raw type name. -/
def resolveField (s : SchemaField) : Option ResolvedField :=
  if (findBestProbabilityType s.types).name = "Array" then
    some { name := s.name
           type := (findBestProbabilityType (findBestProbabilityType s.types).types).name
           isArray := some true }
  else if (findBestProbabilityType s.types).name = "Document" then
    if (∃ f ∈ (findBestProbabilityType s.types).fields, f.name = "lat")
        ∧ (∃ f ∈ (findBestProbabilityType s.types).fields, f.name = "lon")
        ∧ (findBestProbabilityType s.types).fields.length = 2 then
      some { name := s.name, type := "GeoPoint", isArray := some false }
    else
      none
  else
    some { name := s.name, type := (findBestProbabilityType s.types).name, isArray := none }

/-- `getCollectionSchema(collection, schema)` (lines 166–200): the
collection name together with the `map` of `resolveField` over the
probed fields.  The `null` entries of dropped fields are NOT removed
here (the source uses a plain `map`). -/
def getCollectionSchema (name : String) (schemaFields : List SchemaField) :
    CollectionSchema :=
  { name := name, fields := schemaFields.map resolveField }

/-! ### Argmax lemmas for the type resolver -/

theorem bestOf_cons (a t : TypeNode) (ts : List TypeNode) :
    bestOf a (t :: ts)
      = bestOf (if a.probability < t.probability then t else a) ts := rfl

theorem le_probability_bestOf (l : List TypeNode) :
    ∀ a : TypeNode, a.probability ≤ (bestOf a l).probability := by
  induction l with
  | nil => intro a; exact le_refl _
  | cons t ts ih =>
    intro a
    rw [bestOf_cons]
    by_cases h : a.probability < t.probability
    · rw [if_pos h]
      exact le_of_lt (lt_of_lt_of_le h (ih t))
    · rw [if_neg h]
      exact ih a

/-- The initial-value-free `reduce` with a strict comparison returns the
first element of maximal probability: the list splits around the result
with strictly smaller probabilities before it and no larger one after. -/
theorem bestOf_first_max (l : List TypeNode) :
    ∀ a : TypeNode, ∃ l₁ l₂,
      a :: l = l₁ ++ bestOf a l :: l₂
      ∧ (∀ t ∈ l₁, t.probability < (bestOf a l).probability)
      ∧ (∀ t ∈ l₂, t.probability ≤ (bestOf a l).probability) := by
  induction l with
  | nil =>
    intro a
    refine ⟨[], [], rfl, ?_, ?_⟩ <;> intro t ht <;> cases ht
  | cons t ts ih =>
    intro a
    rw [bestOf_cons]
    by_cases h : a.probability < t.probability
    · rw [if_pos h]
      obtain ⟨l₁, l₂, heq, h₁, h₂⟩ := ih t
      refine ⟨a :: l₁, l₂, ?_, ?_, h₂⟩
      · rw [List.cons_append, ← heq]
      · intro u hu
        rcases List.mem_cons.mp hu with rfl | hu
        · exact lt_of_lt_of_le h (le_probability_bestOf ts t)
        · exact h₁ u hu
    · rw [if_neg h]
      obtain ⟨l₁, l₂, heq, h₁, h₂⟩ := ih a
      cases l₁ with
      | nil =>
        rw [List.nil_append] at heq
        injection heq with heq1 heq2
        refine ⟨[], t :: ts, ?_, ?_, ?_⟩
        · rw [List.nil_append, ← heq1]
        · intro u hu; cases hu
        · intro u hu
          rcases List.mem_cons.mp hu with rfl | hu
          · rw [← heq1]; exact le_of_not_lt h
          · rw [heq2] at hu; exact h₂ u hu
      | cons x l₁' =>
        rw [List.cons_append] at heq
        injection heq with heq1 heq2
        refine ⟨a :: t :: l₁', l₂, ?_, ?_, h₂⟩
        · rw [List.cons_append, List.cons_append, ← heq2]
        · intro u hu
          have hax : a.probability < (bestOf a ts).probability := by
            have hx := h₁ x (List.mem_cons_self x l₁')
            rw [← heq1] at hx
            exact hx
          rcases List.mem_cons.mp hu with rfl | hu
          · exact hax
          · rcases List.mem_cons.mp hu with rfl | hu
            · exact lt_of_le_of_lt (le_of_not_lt h) hax
            · exact h₁ u (List.mem_cons_of_mem x hu)

/-- C1: Type Resolver contract.  For a non-empty observation list:
if every observation is the `Undefined` marker the resolver returns a
node named `String`; otherwise the filtered (non-`Undefined`) list
splits around the returned observation, every earlier candidate having
strictly smaller probability and every later one probability at most
the result's — so the result attains the maximum and is the first
observation to do so (deterministic in input order). -/
theorem type_resolver_contract (ts : List TypeNode) (_hne : ts ≠ []) :
    ((∀ t ∈ ts, t.name = "Undefined")
        → (findBestProbabilityType ts).name = "String")
    ∧ (∀ u ∈ ts, u.name ≠ "Undefined" →
        ∃ l₁ l₂,
          ts.filter (fun t => t.name ≠ "Undefined")
            = l₁ ++ findBestProbabilityType ts :: l₂
          ∧ (∀ t ∈ l₁, t.probability < (findBestProbabilityType ts).probability)
          ∧ (∀ t ∈ l₂, t.probability ≤ (findBestProbabilityType ts).probability)) := by
  constructor
  · intro hall
    have hfil : ts.filter (fun t => t.name ≠ "Undefined") = [] := by
      rw [List.filter_eq_nil_iff]
      intro t ht
      simp only [decide_eq_true_eq, ne_eq, not_not]
      exact hall t ht
    rw [findBestProbabilityType, hfil]
    rfl
  · intro u hu hname
    have hmem : u ∈ ts.filter (fun t => t.name ≠ "Undefined") := by
      rw [List.mem_filter]
      exact ⟨hu, by simp only [decide_eq_true_eq]; exact hname⟩
    cases hcase : ts.filter (fun t => t.name ≠ "Undefined") with
    | nil =>
      exact absurd (hcase ▸ hmem) (List.not_mem_nil u)
    | cons t rest =>
      have hbest : findBestProbabilityType ts = bestOf t rest := by
        rw [findBestProbabilityType, hcase]
      obtain ⟨l₁, l₂, heq, h₁, h₂⟩ := bestOf_first_max rest t
      rw [hbest]
      exact ⟨l₁, l₂, heq, h₁, h₂⟩

/-- C1 witness: instantiation at the two-observation list
`[Undefined (p = 1/2), Number (p = 1/2)]`. -/
theorem type_resolver_contract_witness :
    ∃ l₁ l₂,
      ([TypeNode.mk "Undefined" (1/2) [] [],
        TypeNode.mk "Number" (1/2) [] []].filter (fun t => t.name ≠ "Undefined"))
        = l₁ ++ findBestProbabilityType
            [TypeNode.mk "Undefined" (1/2) [] [],
             TypeNode.mk "Number" (1/2) [] []] :: l₂
      ∧ (∀ t ∈ l₁, t.probability
          < (findBestProbabilityType
              [TypeNode.mk "Undefined" (1/2) [] [],
               TypeNode.mk "Number" (1/2) [] []]).probability)
      ∧ (∀ t ∈ l₂, t.probability
          ≤ (findBestProbabilityType
              [TypeNode.mk "Undefined" (1/2) [] [],
               TypeNode.mk "Number" (1/2) [] []]).probability) :=
  (type_resolver_contract
      [TypeNode.mk "Undefined" (1/2) [] [], TypeNode.mk "Number" (1/2) [] []]
      (by simp)).2
    (TypeNode.mk "Number" (1/2) [] [])
    (by simp)
    (by simp [TypeNode.name])

/-! ### The geo-point heuristic (claim C3) -/

/-- The condition tested by the `Document` branch of `getCollectionSchema`
(a field named `lat` exists, a field named `lon` exists, and there are
exactly two fields) holds precisely when the multiset of nested field
names is exactly `{lat, lon}`. -/
theorem geoShape_iff_perm (fs : List DocField) :
    ((∃ f ∈ fs, f.name = "lat") ∧ (∃ f ∈ fs, f.name = "lon") ∧ fs.length = 2)
      ↔ (fs.map DocField.name).Perm ["lat", "lon"] := by
  constructor
  · rintro ⟨⟨f1, hf1, hn1⟩, ⟨f2, hf2, hn2⟩, hlen⟩
    obtain ⟨a, b, rfl⟩ := List.length_eq_two.mp hlen
    have hne : f1 ≠ f2 := by
      intro hcontra
      rw [hcontra, hn2] at hn1
      exact absurd hn1 (by decide)
    simp only [List.mem_cons, List.mem_singleton, List.not_mem_nil, or_false] at hf1 hf2
    rcases hf1 with rfl | rfl
    · rcases hf2 with rfl | rfl
      · exact absurd rfl hne
      · rw [List.map_cons, List.map_cons, List.map_nil, hn1, hn2]
    · rcases hf2 with rfl | rfl
      · rw [List.map_cons, List.map_cons, List.map_nil, hn1, hn2]
        exact (List.Perm.swap "lon" "lat" []).symm
      · exact absurd rfl hne
  · intro hp
    have hlen : fs.length = 2 := by
      have hl := hp.length_eq
      rw [List.length_map] at hl
      exact hl
    have hlat : "lat" ∈ fs.map DocField.name := by
      rw [hp.mem_iff]
      exact List.mem_cons_self _ _
    have hlon : "lon" ∈ fs.map DocField.name := by
      rw [hp.mem_iff]
      exact List.mem_cons_of_mem _ (List.mem_cons_self _ _)
    obtain ⟨f1, hf1, hn1⟩ := List.mem_map.mp hlat
    obtain ⟨f2, hf2, hn2⟩ := List.mem_map.mp hlon
    exact ⟨⟨f1, hf1, hn1⟩, ⟨f2, hf2, hn2⟩, hlen⟩

/-- C3: geo-point heuristic.  For a field whose winning observation is a
nested `Document`, the Schema Compiler produces the `GeoPoint` resolved
field (with `isArray = false`) exactly when the nested field names are
`lat` and `lon` in either order with no other keys, and it produces no
resolved field (`none`/`null`) for every other nested-document shape. -/
theorem geo_point_heuristic (s : SchemaField)
    (hdoc : (findBestProbabilityType s.types).name = "Document") :
    (resolveField s
        = some { name := s.name, type := "GeoPoint", isArray := some false }
      ↔ ((findBestProbabilityType s.types).fields.map DocField.name).Perm
          ["lat", "lon"])
    ∧ (¬ ((findBestProbabilityType s.types).fields.map DocField.name).Perm
          ["lat", "lon"]
        → resolveField s = none) := by
  have hA : ¬ (findBestProbabilityType s.types).name = "Array" := by
    rw [hdoc]; decide
  constructor
  · constructor
    · intro hr
      rw [resolveField, if_neg hA, if_pos hdoc] at hr
      by_cases hc : (∃ f ∈ (findBestProbabilityType s.types).fields, f.name = "lat")
          ∧ (∃ f ∈ (findBestProbabilityType s.types).fields, f.name = "lon")
          ∧ (findBestProbabilityType s.types).fields.length = 2
      · exact (geoShape_iff_perm _).mp hc
      · rw [if_neg hc] at hr
        cases hr
    · intro hp
      rw [resolveField, if_neg hA, if_pos hdoc,
        if_pos ((geoShape_iff_perm _).mpr hp)]
  · intro hnp
    rw [resolveField, if_neg hA, if_pos hdoc,
      if_neg (fun hc => hnp ((geoShape_iff_perm _).mp hc))]

/-- C3 witness: a field observed as a nested document with fields
`lon, lat` resolves to a `GeoPoint`. -/
theorem geo_point_heuristic_witness :
    resolveField
        ⟨"position", [TypeNode.mk "Document" 1 [] [⟨"lon"⟩, ⟨"lat"⟩]]⟩
      = some { name := "position", type := "GeoPoint", isArray := some false } :=
  (geo_point_heuristic
      ⟨"position", [TypeNode.mk "Document" 1 [] [⟨"lon"⟩, ⟨"lat"⟩]]⟩
      (by decide)).1.mpr (by decide)

/-! ### Null entries in the compiled schema (claim C7) -/

/-- C7 counterexample: a collection with a single field observed as a
nested document `{a}` (not the geo-point shape) compiles to a
CollectionSchema whose `fields` sequence still CONTAINS the `null`
entry for the dropped field — the nulls are not removed here. -/
theorem schema_contains_null_counterexample :
    (none : Option ResolvedField) ∈
      (getCollectionSchema "places"
        [⟨"meta", [TypeNode.mk "Document" 1 [] [⟨"a"⟩]]⟩]).fields := by
  decide

/-! ### The mapping compiler (`getMapping`, lines 131–164) -/

/-- One Elasticsearch property descriptor as emitted by `getMapping`:
either `{type: "text", fields: {keyword: {type: "keyword",
ignore_above: N}}}` or one of the plain `{type: ...}` descriptors. -/
inductive EsProp where
  | textWithKeyword (ignoreAbove : Nat)
  | double
  | boolean
  | date
  | geoPoint
deriving DecidableEq, Repr

/-- JS keyed assignment `mapping[k] = v` on an object modelled as a
finite map: the value at `k` is overwritten, all other keys kept. -/
def updateKey (m : String → Option EsProp) (k : String) (v : EsProp) :
    String → Option EsProp :=
  fun x => if x = k then some v else m x

/-- The chained `if (field.type === ...)` assignments of `getMapping`
(lines 139–152): recognized types assign their descriptor under the
field name, any other type falls through leaving the object untouched. -/
def assignProp (m : String → Option EsProp) (f : ResolvedField) :
    String → Option EsProp :=
  if f.type = "String" then updateKey m f.name (EsProp.textWithKeyword 256)
  else if f.type = "Number" then updateKey m f.name EsProp.double
  else if f.type = "Boolean" then updateKey m f.name EsProp.boolean
  else if f.type = "Date" then updateKey m f.name EsProp.date
  else if f.type = "GeoPoint" then updateKey m f.name EsProp.geoPoint
  else m

/-- `const exclude = ["id", "__v", "_id"]` (line 133). -/
def excludedNames : List String := ["id", "__v", "_id"]

/-- `fields.filter((f) => f).filter((f) => !exclude.includes(f.name))`
(lines 136–138): drop the `null` entries, then the reserved names. -/
def survivingFields (fields : List (Option ResolvedField)) :
    List ResolvedField :=
  (fields.filterMap id).filter (fun f => f.name ∉ excludedNames)

/-- The property table built by the loop of `getMapping`. -/
def buildProps (fields : List (Option ResolvedField)) :
    String → Option EsProp :=
  (survivingFields fields).foldl assignProp (fun _ => none)

/-- The value returned by `getMapping` (lines 154–163); the nesting
`body._doc.properties` is flattened into the `properties` field. -/
structure IndexMapping where
  index : String
  type : String
  include_type_name : Bool
  properties : String → Option EsProp

/-- `getMapping(collectionSchema, singularize)`.  `singular` is the
external `pluralize.singular` library transform, passed explicitly. -/
def getMapping (singular : String → String)
    (collectionSchema : CollectionSchema) (singularize : Bool) :
    IndexMapping :=
  { index := if singularize then singular collectionSchema.name
             else collectionSchema.name
    type := "_doc"
    include_type_name := true
    properties := buildProps collectionSchema.fields }

/-- The fixed type→descriptor table of the spec, as a function; the
chained conditionals of `assignProp` agree with it (`assignProp_eq`). -/
def esPropOf (t : String) : Option EsProp :=
  if t = "String" then some (EsProp.textWithKeyword 256)
  else if t = "Number" then some EsProp.double
  else if t = "Boolean" then some EsProp.boolean
  else if t = "Date" then some EsProp.date
  else if t = "GeoPoint" then some EsProp.geoPoint
  else none

theorem assignProp_eq (m : String → Option EsProp) (f : ResolvedField) :
    assignProp m f
      = match esPropOf f.type with
        | some p => updateKey m f.name p
        | none => m := by
  rw [assignProp, esPropOf]
  split_ifs <;> rfl

theorem foldl_assignProp_frame (fs : List ResolvedField) :
    ∀ (m : String → Option EsProp) (k : String),
      (∀ f ∈ fs, f.name ≠ k) → fs.foldl assignProp m k = m k := by
  induction fs with
  | nil => intro m k _; rfl
  | cons g gs ih =>
    intro m k hk
    rw [List.foldl_cons,
      ih (assignProp m g) k (fun f hf => hk f (List.mem_cons_of_mem g hf))]
    rw [assignProp_eq]
    cases hp : esPropOf g.type with
    | none => rfl
    | some p =>
      show updateKey m g.name p k = m k
      rw [updateKey]
      rw [if_neg (fun hkg => hk g (List.mem_cons_self g gs) hkg.symm)]

theorem foldl_assignProp_mem (fs : List ResolvedField)
    (m : String → Option EsProp) (f : ResolvedField)
    (hnd : (fs.map ResolvedField.name).Nodup) (hf : f ∈ fs) :
    fs.foldl assignProp m f.name
      = match esPropOf f.type with
        | some p => some p
        | none => m f.name := by
  obtain ⟨l₁, l₂, rfl⟩ := List.append_of_mem hf
  rw [List.map_append, List.map_cons, List.nodup_append] at hnd
  obtain ⟨hnd1, hnd2, hdisj⟩ := hnd
  rw [List.nodup_cons] at hnd2
  have h1 : ∀ g ∈ l₁, g.name ≠ f.name := fun g hg hgn =>
    hdisj (hgn ▸ List.mem_map_of_mem ResolvedField.name hg)
      (List.mem_cons_self _ _)
  have h2 : ∀ g ∈ l₂, g.name ≠ f.name := fun g hg hgn =>
    hnd2.1 (hgn ▸ List.mem_map_of_mem ResolvedField.name hg)
  rw [List.foldl_append, List.foldl_cons,
    foldl_assignProp_frame l₂ _ _ h2, assignProp_eq]
  cases hp : esPropOf f.type with
  | none => exact foldl_assignProp_frame l₁ m f.name h1
  | some p =>
    show updateKey _ f.name p f.name = some p
    rw [updateKey, if_pos rfl]

theorem buildProps_excluded (fields : List (Option ResolvedField))
    (k : String) (hk : k ∈ excludedNames) : buildProps fields k = none := by
  rw [buildProps]
  apply foldl_assignProp_frame
  intro f hf hfeq
  rw [survivingFields, List.mem_filter] at hf
  have hne : f.name ∉ excludedNames := by simpa using hf.2
  exact hne (hfeq ▸ hk)

theorem mem_survivingFields {fields : List (Option ResolvedField)}
    {f : ResolvedField} (hm : some f ∈ fields)
    (he : f.name ∉ excludedNames) : f ∈ survivingFields fields := by
  rw [survivingFields, List.mem_filter]
  refine ⟨?_, by simpa using he⟩
  rw [List.mem_filterMap]
  exact ⟨some f, hm, rfl⟩

/-- C2: Mapping Compiler property table.  For every CollectionSchema,
the compiled property table is `none` at each of the reserved names
`_id`, `__v`, `id` (they are filtered out regardless of type); the
recognized types map exactly to the fixed descriptors (`String` to a
text field with a 256-character keyword sub-field, `Number` to double,
`Boolean` to boolean, `Date` to date, `GeoPoint` to geo_point); every
other type name has no table entry; and each surviving non-null field
(with field names distinct, as the schema prober guarantees) is mapped
to exactly the table entry of its type — `none`, i.e. silently
omitted, when the type is outside the five tags. -/
theorem mapping_compiler_table (cs : CollectionSchema) (singularize : Bool)
    (singular : String → String) :
    (getMapping singular cs singularize).properties "_id" = none
    ∧ (getMapping singular cs singularize).properties "__v" = none
    ∧ (getMapping singular cs singularize).properties "id" = none
    ∧ esPropOf "String" = some (EsProp.textWithKeyword 256)
    ∧ esPropOf "Number" = some EsProp.double
    ∧ esPropOf "Boolean" = some EsProp.boolean
    ∧ esPropOf "Date" = some EsProp.date
    ∧ esPropOf "GeoPoint" = some EsProp.geoPoint
    ∧ (∀ t : String, t ≠ "String" → t ≠ "Number" → t ≠ "Boolean" →
        t ≠ "Date" → t ≠ "GeoPoint" → esPropOf t = none)
    ∧ (∀ f : ResolvedField,
        ((survivingFields cs.fields).map ResolvedField.name).Nodup →
        some f ∈ cs.fields → f.name ∉ excludedNames →
        (getMapping singular cs singularize).properties f.name
          = esPropOf f.type) := by
  refine ⟨buildProps_excluded _ _ (by decide),
    buildProps_excluded _ _ (by decide),
    buildProps_excluded _ _ (by decide),
    rfl, rfl, rfl, rfl, rfl, ?_, ?_⟩
  · intro t h1 h2 h3 h4 h5
    rw [esPropOf, if_neg h1, if_neg h2, if_neg h3, if_neg h4, if_neg h5]
  · intro f hnd hmem hexcl
    show buildProps cs.fields f.name = esPropOf f.type
    rw [buildProps,
      foldl_assignProp_mem _ _ f hnd (mem_survivingFields hmem hexcl)]
    cases hp : esPropOf f.type with
    | none => rfl
    | some p => rfl

/-- C2 witness: a single `String` field named `username` receives the
text-plus-keyword descriptor. -/
theorem mapping_compiler_table_witness :
    (getMapping (fun s => s)
        ⟨"users", [some ⟨"username", "String", none⟩]⟩ false).properties
        "username"
      = some (EsProp.textWithKeyword 256) :=
  (mapping_compiler_table ⟨"users", [some ⟨"username", "String", none⟩]⟩
      false (fun s => s)).2.2.2.2.2.2.2.2.2
    ⟨"username", "String", none⟩ (by decide) (by decide) (by decide)

/-! ### The document normalizer (`serialize`, lines 215–230) -/

/-- Left-pad a number to two digits. -/
def pad2 (n : Nat) : String :=
  if n < 10 then "0" ++ toString n else toString n

/-- Left-pad a number to three digits. -/
def pad3 (n : Nat) : String :=
  if n < 10 then "00" ++ toString n
  else if n < 100 then "0" ++ toString n
  else toString n

/-- Left-pad a number to four digits. -/
def pad4 (n : Nat) : String :=
  if n < 10 then "000" ++ toString n
  else if n < 100 then "00" ++ toString n
  else if n < 1000 then "0" ++ toString n
  else toString n

/-- Render a (possibly negative or expanded) ISO year. -/
def padYear (y : Int) : String :=
  if 0 ≤ y ∧ y ≤ 9999 then pad4 y.toNat
  else if 0 ≤ y then "+" ++ toString y.toNat
  else "-" ++ toString (-y).toNat

/-- Proleptic-Gregorian civil date from days since the Unix epoch
(the standard era-based algorithm); used to render ISO-8601 dates. -/
def civilFromDays (z0 : Int) : Int × Nat × Nat :=
  let z := z0 + 719468
  let era := z.fdiv 146097
  let doe := (z.fmod 146097).toNat
  let yoe := (doe - doe / 1460 + doe / 36524 - doe / 146096) / 365
  let doy := doe - (365 * yoe + yoe / 4 - yoe / 100)
  let mp := (5 * doy + 2) / 153
  let d := doy - (153 * mp + 2) / 5 + 1
  let m := if mp < 10 then mp + 3 else mp - 9
  let y := (yoe : Int) + era * 400 + (if m ≤ 2 then 1 else 0)
  (y, m, d)

/-- `Date.prototype.toISOString` of the JS runtime, embedded from epoch
milliseconds: the canonical `YYYY-MM-DDTHH:mm:ss.sssZ` UTC timestamp. -/
def toISOString (ms : Int) : String :=
  let days := ms.fdiv 86400000
  let msod := (ms.fmod 86400000).toNat
  let c := civilFromDays days
  padYear c.1 ++ "-" ++ pad2 c.2.1 ++ "-" ++ pad2 c.2.2
    ++ "T" ++ pad2 (msod / 3600000)
    ++ ":" ++ pad2 (msod % 3600000 / 60000)
    ++ ":" ++ pad2 (msod % 60000 / 1000)
    ++ "." ++ pad3 (msod % 1000) ++ "Z"

/-- The JS value tree of a MongoDB document: scalars, `Date` objects
(epoch milliseconds), arrays, and plain nested objects modelled as
ordered key/value lists. -/
inductive Value where
  | vNull
  | vBool (b : Bool)
  | vNum (n : Int)
  | vStr (s : String)
  | vDate (ms : Int)
  | vArr (elems : List Value)
  | vObj (fields : List (String × Value))

mutual

/-- The value branch of the key loop of `serialize` (lines 218–227):
a `Date` becomes its ISO string; an array passes through unchanged
(checked before the object test, so there is no element recursion);
a remaining object recurses; every other value passes through. -/
def serializeVal : Value → Value
  | .vDate ms => .vStr (toISOString ms)
  | .vArr elems => .vArr elems
  | .vObj fields => .vObj (serialize fields)
  | .vNull => .vNull
  | .vBool b => .vBool b
  | .vNum n => .vNum n
  | .vStr s => .vStr s

/-- `serialize(data)` (lines 215–230): rebuild the object key by key,
passing each value through `serializeVal`. -/
def serialize : List (String × Value) → List (String × Value)
  | [] => []
  | (k, v) :: rest => (k, serializeVal v) :: serialize rest

end

theorem serialize_nil : serialize [] = [] := by
  rw [serialize]

theorem serialize_cons (k : String) (v : Value)
    (rest : List (String × Value)) :
    serialize ((k, v) :: rest) = (k, serializeVal v) :: serialize rest := by
  rw [serialize]

theorem serialize_eq_map (d : List (String × Value)) :
    serialize d = d.map (fun kv => (kv.1, serializeVal kv.2)) := by
  induction d with
  | nil => rw [serialize_nil, List.map_nil]
  | cons kv rest ih =>
    obtain ⟨k, v⟩ := kv
    rw [serialize_cons, List.map_cons, ih]

/-- C4: Document Normalizer contract.  `serialize` preserves the key
sequence of the tree and rewrites each value by exactly these rules:
`Date` values become their canonical ISO-8601 UTC text timestamp,
arrays pass through unchanged with no element-wise recursion (so dates
inside arrays are untouched), plain nested objects are recursively
normalized by the same rules, and every other scalar passes through
unchanged. -/
theorem document_normalizer_contract (d : List (String × Value))
    (ms n : Int) (elems : List Value) (fields : List (String × Value))
    (s : String) (b : Bool) :
    (serialize d).map Prod.fst = d.map Prod.fst
    ∧ serialize d = d.map (fun kv => (kv.1, serializeVal kv.2))
    ∧ serializeVal (Value.vDate ms) = Value.vStr (toISOString ms)
    ∧ serializeVal (Value.vArr elems) = Value.vArr elems
    ∧ serializeVal (Value.vObj fields) = Value.vObj (serialize fields)
    ∧ serializeVal Value.vNull = Value.vNull
    ∧ serializeVal (Value.vBool b) = Value.vBool b
    ∧ serializeVal (Value.vNum n) = Value.vNum n
    ∧ serializeVal (Value.vStr s) = Value.vStr s := by
  refine ⟨?_, serialize_eq_map d, ?_, ?_, ?_, ?_, ?_, ?_, ?_⟩
  · rw [serialize_eq_map, List.map_map]
    rfl
  all_goals rw [serializeVal]

mutual

theorem serializeVal_idem_aux (v : Value) :
    serializeVal (serializeVal v) = serializeVal v := by
  cases v with
  | vObj fields =>
    rw [serializeVal, serializeVal, serialize_idem_aux fields]
  | vDate ms => simp only [serializeVal]
  | vArr elems => simp only [serializeVal]
  | vNull => simp only [serializeVal]
  | vBool b => simp only [serializeVal]
  | vNum n => simp only [serializeVal]
  | vStr s => simp only [serializeVal]

theorem serialize_idem_aux (d : List (String × Value)) :
    serialize (serialize d) = serialize d := by
  cases d with
  | nil => simp only [serialize_nil]
  | cons kv rest =>
    obtain ⟨k, v⟩ := kv
    rw [serialize_cons, serialize_cons, serializeVal_idem_aux v,
      serialize_idem_aux rest]

end

/-- C5: the Document Normalizer is idempotent — re-serializing its own
output yields the identical tree (dates already rendered as canonical
text strings are plain strings and pass through unchanged). -/
theorem document_normalizer_idempotent (d : List (String × Value)) :
    serialize (serialize d) = serialize d :=
  serialize_idem_aux d

/-! ### The TypeTag classification and the unknown-type policy -/

/-- Modelled from the spec: the closed `TypeTag` variant type of the
data model (the source keeps raw type-name strings instead of tags). -/
inductive TypeTag where
  | tString
  | tNumber
  | tBoolean
  | tDate
  | tGeoPoint
  | tUnknown
deriving DecidableEq, Repr

/-- Modelled from the spec: classification of a raw type-name string
into the spec's `TypeTag`; every name outside the recognized set is
`tUnknown`. -/
def specTypeTagOf (t : String) : TypeTag :=
  if t = "String" then TypeTag.tString
  else if t = "Number" then TypeTag.tNumber
  else if t = "Boolean" then TypeTag.tBoolean
  else if t = "Date" then TypeTag.tDate
  else if t = "GeoPoint" then TypeTag.tGeoPoint
  else TypeTag.tUnknown

theorem esPropOf_eq_none_of_unknown {t : String}
    (h : specTypeTagOf t = TypeTag.tUnknown) : esPropOf t = none := by
  rw [specTypeTagOf] at h
  rw [esPropOf]
  split_ifs at h ⊢
  rfl

theorem buildProps_single_unmapped (o : Option ResolvedField)
    (h : ∀ f : ResolvedField, o = some f → esPropOf f.type = none)
    (k : String) : buildProps [o] k = none := by
  cases o with
  | none => rfl
  | some f =>
    have hf := h f rfl
    by_cases he : f.name ∈ excludedNames
    · have hs : survivingFields [some f] = [] := by
        rw [survivingFields]
        simp [List.filter_cons, he]
      rw [buildProps, hs]
      rfl
    · have hs : survivingFields [some f] = [f] := by
        rw [survivingFields]
        simp [List.filter_cons, he]
      rw [buildProps, hs]
      show assignProp (fun _ => none) f k = none
      rw [assignProp_eq, hf]

/-- C6: unknown-tag policy.  For a field whose winning (maximum
probability, non-absent) observation carries a type name outside the
recognized set — classified `tUnknown` by the spec's tag table, and not
one of the container names `Array`/`Document` that branch earlier — the
Schema Compiler retains the field with its raw type name, the fixed
type table has no entry for that name, and the Mapping Compiler then
emits an empty property table for a schema holding that field: the
field is silently dropped, no error is raised. -/
theorem unknown_type_policy (s : SchemaField)
    (hU : specTypeTagOf (findBestProbabilityType s.types).name
            = TypeTag.tUnknown)
    (hA : (findBestProbabilityType s.types).name ≠ "Array")
    (hD : (findBestProbabilityType s.types).name ≠ "Document") :
    resolveField s
        = some { name := s.name
                 type := (findBestProbabilityType s.types).name
                 isArray := none }
    ∧ esPropOf (findBestProbabilityType s.types).name = none
    ∧ ∀ (n : String) (sing : Bool) (sg : String → String),
        (getMapping sg (getCollectionSchema n [s]) sing).properties
          = fun _ => none := by
  have hres : resolveField s
      = some { name := s.name
               type := (findBestProbabilityType s.types).name
               isArray := none } := by
    rw [resolveField, if_neg hA, if_neg hD]
  refine ⟨hres, esPropOf_eq_none_of_unknown hU, ?_⟩
  intro n sing sg
  funext k
  show buildProps ((getCollectionSchema n [s]).fields) k = none
  have hfields : (getCollectionSchema n [s]).fields = [resolveField s] := rfl
  rw [hfields]
  apply buildProps_single_unmapped
  intro f hfe
  rw [hres] at hfe
  injection hfe with hfe
  rw [← hfe]
  exact esPropOf_eq_none_of_unknown hU

/-- C6 witness: a field observed only as `ObjectId` is retained in the
schema with that raw type name. -/
theorem unknown_type_policy_witness :
    resolveField ⟨"oid", [TypeNode.mk "ObjectId" 1 [] []]⟩
      = some { name := "oid", type := "ObjectId", isArray := none } :=
  (unknown_type_policy ⟨"oid", [TypeNode.mk "ObjectId" 1 [] []]⟩
      (by decide) (by decide) (by decide)).1

/-- C7 amended: the `fields` sequence of the compiled CollectionSchema
holds one entry per probed field in input order, with `null` entries
for dropped/unsupported fields RETAINED (not removed); the nulls are
removed downstream by the Mapping Compiler's filter, whose surviving
field list is unchanged if the nulls are purged beforehand. -/
theorem schema_nulls_retained_then_filtered (name : String)
    (l : List SchemaField) :
    (getCollectionSchema name l).fields = l.map resolveField
    ∧ survivingFields (getCollectionSchema name l).fields
        = survivingFields
            (((getCollectionSchema name l).fields.filterMap id).map some) := by
  refine ⟨rfl, ?_⟩
  rw [survivingFields, survivingFields]
  congr 1
  rw [List.filterMap_map]
  have hcomp : (id ∘ (some : ResolvedField → Option ResolvedField)) = some := rfl
  rw [hcomp, List.filterMap_some]

/-! ### The per-collection sync loop of `run` (lines 92–127) -/

/-- One element of the interleaved Elasticsearch bulk body: either an
`{index: {_index, _type, _id}}` action descriptor or a document
payload. -/
inductive BulkItem where
  | action (indexName : String) (typeName : String) (docId : String)
  | payload (doc : List (String × Value))

/-- The rest-destructuring `const { _id, __v, ...data } = document`
(line 106): every top-level key except `_id` and `__v` survives. -/
def stripIdAndVersion (d : List (String × Value)) : List (String × Value) :=
  d.filter (fun kv => kv.1 ≠ "_id" ∧ kv.1 ≠ "__v")

/-- The bulk-building loop (lines 104–117): per document, one action
descriptor — target index singularized exactly as in `getMapping`,
type `_doc`, id the document's `_id` rendered as text by the external
`toString` of the driver value (abstracted as `idToString`) — followed
by the document serialized after `_id`/`__v` are stripped. -/
def buildBulk (singular : String → String) (idToString : Option Value → String)
    (singularizeName : Bool) (collectionName : String)
    (docs : List (List (String × Value))) : List BulkItem :=
  docs.foldr
    (fun d acc =>
      BulkItem.action
          (if singularizeName then singular collectionName else collectionName)
          "_doc" (idToString (d.lookup "_id"))
        :: BulkItem.payload (serialize (stripIdAndVersion d)) :: acc)
    []

/-- Truthiness of the `error` field of the bulk response
(`if (res.error)`, line 123): present and non-empty. -/
def errTruthy : Option String → Bool
  | none => false
  | some e => e != ""

/-- One collection as seen by the sync loop: its name and the documents
returned by the full `find()` fetch (an external call). -/
structure CollInput where
  name : String
  docs : List (List (String × Value))

/-- The `for (const collectionSchema of collectionsSchemas)` loop of
`run` (lines 92–127): per collection build the bulk body; when it is
non-empty (`if (bulk.length)`) submit it — the external bulk call is
abstracted as `bulkResponse`, returning the `error` field of the
response — and on a truthy error abort the whole run via `this.error`
with the message of line 124.  The result records the names of the
collections for which a bulk request was submitted and the fatal error
message, if any. -/
def runSync (singular : String → String) (idToString : Option Value → String)
    (bulkResponse : String → List BulkItem → Option String)
    (singularizeName : Bool) : List CollInput → List String × Option String
  | [] => ([], none)
  | c :: rest =>
    if (buildBulk singular idToString singularizeName c.name c.docs).length ≠ 0 then
      if errTruthy (bulkResponse c.name
          (buildBulk singular idToString singularizeName c.name c.docs)) then
        ([c.name],
         some ("Error syncing " ++ c.name ++ ": "
           ++ ((bulkResponse c.name
                 (buildBulk singular idToString singularizeName c.name
                   c.docs)).getD "")))
      else
        (c.name
            :: (runSync singular idToString bulkResponse singularizeName rest).1,
         (runSync singular idToString bulkResponse singularizeName rest).2)
    else runSync singular idToString bulkResponse singularizeName rest

section SyncLoop

variable (singular : String → String) (idToString : Option Value → String)
variable (bulkResponse : String → List BulkItem → Option String)
variable (singularizeName : Bool)

theorem buildBulk_cons (collectionName : String)
    (d : List (String × Value)) (ds : List (List (String × Value))) :
    buildBulk singular idToString singularizeName collectionName (d :: ds)
      = BulkItem.action
            (if singularizeName then singular collectionName
             else collectionName)
            "_doc" (idToString (d.lookup "_id"))
        :: BulkItem.payload (serialize (stripIdAndVersion d))
        :: buildBulk singular idToString singularizeName collectionName ds :=
  rfl

theorem buildBulk_length (collectionName : String)
    (docs : List (List (String × Value))) :
    (buildBulk singular idToString singularizeName collectionName docs).length
      = 2 * docs.length := by
  induction docs with
  | nil => rfl
  | cons d ds ih =>
    rw [buildBulk_cons, List.length_cons, List.length_cons, ih,
      List.length_cons]
    omega

theorem buildBulk_length_ne_zero (collectionName : String)
    (docs : List (List (String × Value))) (h : docs ≠ []) :
    (buildBulk singular idToString singularizeName collectionName
      docs).length ≠ 0 := by
  rw [buildBulk_length]
  cases docs with
  | nil => exact absurd rfl h
  | cons d ds => rw [List.length_cons]; omega

theorem runSync_nil :
    runSync singular idToString bulkResponse singularizeName [] = ([], none) :=
  rfl

theorem runSync_skip (c : CollInput) (rest : List CollInput)
    (h : c.docs = []) :
    runSync singular idToString bulkResponse singularizeName (c :: rest)
      = runSync singular idToString bulkResponse singularizeName rest := by
  have hlen : (buildBulk singular idToString singularizeName c.name
      c.docs).length = 0 := by
    rw [h]
    rfl
  rw [runSync, if_neg (fun hne => hne hlen)]

theorem runSync_err (c : CollInput) (rest : List CollInput)
    (hd : c.docs ≠ [])
    (he : errTruthy (bulkResponse c.name
      (buildBulk singular idToString singularizeName c.name c.docs)) = true) :
    runSync singular idToString bulkResponse singularizeName (c :: rest)
      = ([c.name],
         some ("Error syncing " ++ c.name ++ ": "
           ++ ((bulkResponse c.name
                 (buildBulk singular idToString singularizeName c.name
                   c.docs)).getD ""))) := by
  rw [runSync,
    if_pos (buildBulk_length_ne_zero singular idToString singularizeName
      c.name c.docs hd),
    if_pos he]

theorem runSync_ok (c : CollInput) (rest : List CollInput)
    (hd : c.docs ≠ [])
    (he : errTruthy (bulkResponse c.name
      (buildBulk singular idToString singularizeName c.name c.docs))
        = false) :
    runSync singular idToString bulkResponse singularizeName (c :: rest)
      = (c.name
          :: (runSync singular idToString bulkResponse singularizeName
              rest).1,
         (runSync singular idToString bulkResponse singularizeName rest).2)
    := by
  rw [runSync,
    if_pos (buildBulk_length_ne_zero singular idToString singularizeName
      c.name c.docs hd),
    if_neg (by rw [he]; exact Bool.false_ne_true)]

end SyncLoop

/-- C8: index-naming consistency.  For every collection and every
setting of the `singularizeName` flag, the index name of the compiled
IndexMapping and the `_index` of every bulk action descriptor are both
the collection name when the flag is unset and both the output of the
pluggable singularization transform when it is set. -/
theorem index_naming_consistency (singular : String → String)
    (idToString : Option Value → String) (cs : CollectionSchema)
    (singularizeName : Bool) (docs : List (List (String × Value))) :
    (getMapping singular cs singularizeName).index
        = (if singularizeName then singular cs.name else cs.name)
    ∧ ∀ b ∈ buildBulk singular idToString singularizeName cs.name docs,
        ∀ i t d0, b = BulkItem.action i t d0 →
          i = (getMapping singular cs singularizeName).index := by
  refine ⟨rfl, ?_⟩
  induction docs with
  | nil =>
    intro b hb
    exact absurd hb (List.not_mem_nil b)
  | cons d ds ih =>
    intro b hb i t d0 hbe
    rw [buildBulk_cons] at hb
    rcases List.mem_cons.mp hb with rfl | hb
    · injection hbe with h1 h2 h3
      rw [← h1]
      rfl
    · rcases List.mem_cons.mp hb with rfl | hb
      · exact BulkItem.noConfusion hbe
      · exact ih b hb i t d0 hbe

/-- C8 witness: with the flag set and a singularizer sending `users`
to `user`, the action descriptor's index equals the mapping's index. -/
theorem index_naming_consistency_witness :
    "user" = (getMapping (fun _ => "user") ⟨"users", []⟩ true).index :=
  (index_naming_consistency (fun _ => "user") (fun _ => "1") ⟨"users", []⟩
      true [[("_id", Value.vStr "1")]]).2
    (BulkItem.action "user" "_doc" "1")
    (List.mem_cons_self _ _)
    "user" "_doc" "1" rfl

/-- C9: bulk-write error handling.  If every collection before `c`
gets a non-truthy bulk error and `c` (which has documents, so a bulk
request is submitted) gets a truthy top-level error, the run ends with
the fatal message naming `c`, and the collections after `c` are never
processed: the submitted-collection trace is exactly the non-empty
collections of the prefix followed by `c`, whatever follows. -/
theorem bulk_error_halts (singular : String → String)
    (idToString : Option Value → String)
    (bulkResponse : String → List BulkItem → Option String)
    (singularizeName : Bool) (pre : List CollInput) (c : CollInput)
    (post : List CollInput)
    (hpre : ∀ p ∈ pre,
      errTruthy (bulkResponse p.name
        (buildBulk singular idToString singularizeName p.name p.docs))
          = false)
    (hdocs : c.docs ≠ [])
    (herr : errTruthy (bulkResponse c.name
      (buildBulk singular idToString singularizeName c.name c.docs))
        = true) :
    runSync singular idToString bulkResponse singularizeName
        (pre ++ c :: post)
      = ((pre.filter (fun p => !p.docs.isEmpty)).map CollInput.name
            ++ [c.name],
         some ("Error syncing " ++ c.name ++ ": "
           ++ ((bulkResponse c.name
                 (buildBulk singular idToString singularizeName c.name
                   c.docs)).getD ""))) := by
  induction pre with
  | nil =>
    rw [List.nil_append,
      runSync_err singular idToString bulkResponse singularizeName c post
        hdocs herr]
    rfl
  | cons p pre ih =>
    have hpre' : ∀ q ∈ pre,
        errTruthy (bulkResponse q.name
          (buildBulk singular idToString singularizeName q.name q.docs))
            = false :=
      fun q hq => hpre q (List.mem_cons_of_mem p hq)
    rw [List.cons_append]
    cases hpd : p.docs with
    | nil =>
      rw [runSync_skip singular idToString bulkResponse singularizeName p
          (pre ++ c :: post) hpd,
        ih hpre']
      have hfil : List.filter (fun p => !p.docs.isEmpty) (p :: pre)
          = List.filter (fun p => !p.docs.isEmpty) pre := by
        rw [List.filter_cons]
        rw [hpd]
        rfl
      rw [hfil]
    | cons d ds =>
      have hpne : p.docs ≠ [] := by
        rw [hpd]
        exact List.cons_ne_nil d ds
      rw [runSync_ok singular idToString bulkResponse singularizeName p
          (pre ++ c :: post) hpne (hpre p (List.mem_cons_self p pre)),
        ih hpre']
      have hfil : List.filter (fun p => !p.docs.isEmpty) (p :: pre)
          = p :: List.filter (fun p => !p.docs.isEmpty) pre := by
        rw [List.filter_cons]
        rw [hpd]
        rfl
      rw [hfil, List.map_cons, List.cons_append]

/-- C9 witness: two collections, the first bulk response carrying the
error `boom` — the run stops with the message naming `users` and the
second collection is never synced. -/
theorem bulk_error_halts_witness :
    runSync (fun s => s) (fun _ => "1") (fun _ _ => some "boom") false
        [⟨"users", [[("_id", Value.vStr "1")]]⟩,
         ⟨"next", [[("_id", Value.vStr "2")]]⟩]
      = (["users"], some "Error syncing users: boom") :=
  (bulk_error_halts (fun s => s) (fun _ => "1") (fun _ _ => some "boom")
      false [] ⟨"users", [[("_id", Value.vStr "1")]]⟩
      [⟨"next", [[("_id", Value.vStr "2")]]⟩]
      (fun p hp => absurd hp (List.not_mem_nil p))
      (List.cons_ne_nil _ _)
      (by decide)).trans (by decide)

/-- C10: empty-collection edge case.  A collection whose fetch returns
zero documents contributes nothing to the sync loop — processing it is
literally processing the remaining collections, so no bulk request and
no error check happen for it — and every collection recorded as
bulk-written had at least one document. -/
theorem empty_collection_skipped (singular : String → String)
    (idToString : Option Value → String)
    (bulkResponse : String → List BulkItem → Option String)
    (singularizeName : Bool) (c : CollInput) (rest : List CollInput)
    (h : c.docs = []) :
    runSync singular idToString bulkResponse singularizeName (c :: rest)
        = runSync singular idToString bulkResponse singularizeName rest
    ∧ ∀ (inputs : List CollInput) (n : String),
        n ∈ (runSync singular idToString bulkResponse singularizeName
              inputs).1 →
        ∃ c' ∈ inputs, c'.name = n ∧ c'.docs ≠ [] := by
  refine ⟨runSync_skip singular idToString bulkResponse singularizeName c
      rest h, ?_⟩
  intro inputs
  induction inputs with
  | nil =>
    intro n hn
    rw [runSync_nil] at hn
    exact absurd hn (List.not_mem_nil n)
  | cons q qs ih =>
    intro n hn
    cases hqd : q.docs with
    | nil =>
      rw [runSync_skip singular idToString bulkResponse singularizeName q qs
          hqd] at hn
      obtain ⟨c', hc', hcn⟩ := ih n hn
      exact ⟨c', List.mem_cons_of_mem q hc', hcn⟩
    | cons d ds =>
      have hqne : q.docs ≠ [] := by
        rw [hqd]
        exact List.cons_ne_nil d ds
      cases hbe : errTruthy (bulkResponse q.name
          (buildBulk singular idToString singularizeName q.name q.docs)) with
      | true =>
        rw [runSync_err singular idToString bulkResponse singularizeName q qs
            hqne hbe] at hn
        have hqn : n = q.name := by
          rcases List.mem_cons.mp hn with h' | h'
          · exact h'
          · exact absurd h' (List.not_mem_nil n)
        exact ⟨q, List.mem_cons_self q qs, hqn.symm, hqne⟩
      | false =>
        rw [runSync_ok singular idToString bulkResponse singularizeName q qs
            hqne hbe] at hn
        rcases List.mem_cons.mp hn with rfl | hn
        · exact ⟨q, List.mem_cons_self q qs, rfl, hqne⟩
        · obtain ⟨c', hc', hcn⟩ := ih n hn
          exact ⟨c', List.mem_cons_of_mem q hc', hcn⟩

/-- C10 witness: a collection with zero fetched documents is skipped
over, and the submitted-collection characterization holds. -/
theorem empty_collection_skipped_witness :
    (runSync (fun s => s) (fun _ => "") (fun _ _ => none) false
        [⟨"empty", []⟩]
      = runSync (fun s => s) (fun _ => "") (fun _ _ => none) false [])
    ∧ ∀ (inputs : List CollInput) (n : String),
        n ∈ (runSync (fun s => s) (fun _ => "") (fun _ _ => none) false
              inputs).1 →
        ∃ c' ∈ inputs, c'.name = n ∧ c'.docs ≠ [] :=
  empty_collection_skipped (fun s => s) (fun _ => "") (fun _ _ => none)
    false ⟨"empty", []⟩ [] rfl
